import Mathlib

set_option maxRecDepth 100000
set_option maxHeartbeats 1000000

/-!
Verification of the GraphQL query-building service of Angular-Slickgrid
(`src/app/modules/angular-slickgrid/services/graphql.service.ts`).

The service is written in TypeScript.  We shallowly embed it here:

* JavaScript values are modelled by the inductive `JValue` (objects are
  association lists of string keys, which is faithful to JS objects for the
  shapes this service manipulates; an absent key is distinct from a key whose
  value is `undefined`).
* The mutable `serviceOptions` field of the service is threaded explicitly:
  every method takes the current options object and returns the new one.
* Exceptions become `Except JErr`: `JErr.configError` is the explicit
  `throw new Error(...)` of `buildQuery`, and `JErr.typeError` is the
  JavaScript `TypeError` raised (in strict mode, which class bodies are)
  when a property is assigned on a non-object value.
* The external `graphql-query-builder` dependency is not part of this
  repository; its document structure and serialization are modelled from the
  spec (see `QueryDoc`, `serializeDoc`).
* `trimDoubleQuotesOnEnumField` builds its pattern with the template literal
  `` `\s?(".*?")` ``; in a JavaScript template literal `\s` denotes the plain
  character `s`, so the compiled pattern is `key s? ( " .*? " )` for each key
  (the code's own comment shows exactly this pattern).  `tryKey` below embeds
  this pattern directly: optional literal `s`, then a double quote, then a
  lazy scan (stopping at the first quote, failing on a line terminator, since
  `.` does not match line terminators), then the closing quote.
-/

/-- A JavaScript value: `undefined`, `null`, booleans, (integer) numbers,
strings, arrays and plain objects.  Objects are association lists in
insertion order, mirroring JS object key ordering. -/
inductive JValue where
  | jundefined : JValue
  | jnull : JValue
  | jbool (b : Bool) : JValue
  | jnum (n : Int) : JValue
  | jstr (s : String) : JValue
  | jarr (elems : List JValue) : JValue
  | jobj (fields : List (String × JValue)) : JValue

/-- A JavaScript object: keys with values, in insertion order. -/
abbrev JObj := List (String × JValue)

/-- First binding of key `k` in an object (JS property lookup on objects
with unique keys). -/
def getKey : JObj → String → Option JValue
  | [], _ => none
  | (k₀, v₀) :: t, k => if k₀ = k then some v₀ else getKey t k

/-- JS property write `o[k] = v`: replaces the value of an existing key in
place (keys keep their insertion position), or appends a new key. -/
def setKey : JObj → String → JValue → JObj
  | [], k, v => [(k, v)]
  | (k₀, v₀) :: t, k, v => if k₀ = k then (k₀, v) :: t else (k₀, v₀) :: setKey t k v

/-- Inserts every binding of `es` into `l` in order, by JS property writes. -/
def insertAll : JObj → JObj → JObj
  | l, [] => l
  | l, (k, v) :: t => insertAll (setKey l k v) t

/-- JS object spread `{...a, ...b}`: a fresh object receiving all of `a`'s
properties in order, then all of `b`'s (overwriting values, keeping the
original insertion position of overwritten keys). -/
def jsSpread (a b : JObj) : JObj :=
  insertAll (insertAll [] a) b

/-- JS falsiness: `undefined`, `null`, `false`, `0` and `""` are falsy;
every object and array (even empty) is truthy. -/
def jsFalsy : JValue → Bool
  | .jundefined => true
  | .jnull => true
  | .jbool false => true
  | .jnum 0 => true
  | .jstr "" => true
  | _ => false

/-- JS truthiness. -/
def jsTruthy (v : JValue) : Bool := !jsFalsy v

/-- JS property read `o.k`: `undefined` when the key is absent. -/
def jsGet (s : JObj) (k : String) : JValue :=
  match getKey s k with
  | some v => v
  | none => .jundefined

/-- JS `a || b`. -/
def jsOr (a b : JValue) : JValue := if jsTruthy a then a else b

/-- Is the value a plain object? -/
def isJObj : JValue → Bool
  | .jobj _ => true
  | _ => false

/-- Errors this layer can produce: the explicit configuration `throw` of
`buildQuery`, and the strict-mode `TypeError` of a property assignment on a
non-object target. -/
inductive JErr where
  | configError (msg : String) : JErr
  | typeError (msg : String) : JErr

/-- JS property assignment `target.k = v` under strict-mode semantics:
succeeds on a plain object, throws a `TypeError` on `undefined`, `null` or a
primitive.  (The service only ever assigns onto the `paginationOptions`
object, never onto an array.) -/
def setProp (target : JValue) (k : String) (v : JValue) : Except JErr JValue :=
  match target with
  | .jobj fs => .ok (.jobj (setKey fs k v))
  | _ => .error (.typeError ("Cannot set property " ++ k))

/-! ## The enum-unquoting fixer (`trimDoubleQuotesOnEnumField`)

The source builds, for enum search words `k₁ … kₙ`, the regular expression
`k₁s?(".*?")|…|kₙs?(".*?")` (global flag), and replaces every match by the
match with all `"` characters removed.  An empty word list degenerates to the
single clause `s?(".*?")`.  The embedding below is a direct implementation of
this scan-and-replace for keys that contain no regex metacharacters (the
service always passes `sort:`, `direction:`, `fieldName:`, `fieldOperator:`).
-/

/-- JS line terminators, which `.` does not match. -/
def isLineTerm (c : Char) : Bool :=
  c = '\n' || c = '\r' || c = Char.ofNat 0x2028 || c = Char.ofNat 0x2029

/-- Strip `p` from the front of `l`, if it is a prefix. -/
def stripPfx : List Char → List Char → Option (List Char)
  | [], l => some l
  | _ :: _, [] => none
  | k :: kt, c :: t => if k = c then stripPfx kt t else none

/-- The lazy scan of `.*?"`: consume characters up to and including the first
`"`, failing at the end of input or at a line terminator.  Returns the
consumed characters (ending with the quote) and the remainder. -/
def scanClose : List Char → Option (List Char × List Char)
  | [] => none
  | c :: t =>
    if c = '"' then some ([c], t)
    else if isLineTerm c then none
    else (scanClose t).map (fun p => (c :: p.1, p.2))

/-- The group `(".*?")`: an opening quote, then the lazy scan for the closing
quote. -/
def quoted : List Char → Option (List Char × List Char)
  | '"' :: t => (scanClose t).map (fun p => ('"' :: p.1, p.2))
  | _ => none

/-- After the key matched, the pattern continues with `s?(".*?")`: the greedy
optional `s` is tried first, backtracking to the empty alternative when the
quoted group fails after it. -/
def tryKeyCore (key rest₁ : List Char) : Option (List Char × List Char) :=
  match rest₁ with
  | 's' :: r₂ =>
    match quoted r₂ with
    | some p => some (key ++ 's' :: p.1, p.2)
    | none => (quoted rest₁).map (fun p => (key ++ p.1, p.2))
  | _ => (quoted rest₁).map (fun p => (key ++ p.1, p.2))

/-- Try to match the clause `key s? (".*?")` at the start of `l`.  Returns
the matched characters and the remainder. -/
def tryKey (key l : List Char) : Option (List Char × List Char) :=
  match stripPfx key l with
  | some rest₁ => tryKeyCore key rest₁
  | none => none

/-- Alternation: the clauses are tried left to right at the current
position. -/
def tryKeys : List (List Char) → List Char → Option (List Char × List Char)
  | [], _ => none
  | k :: ks, l =>
    match tryKey k l with
    | some p => some p
    | none => tryKeys ks l

/-- The global scan of `String.replace`: at each position try the alternation;
a match is replaced by the matched text with every `"` removed, and scanning
resumes after the match; otherwise the character is copied.  The fuel is the
length of the input, which suffices because every step consumes at least one
character. -/
def fixGo (keys : List (List Char)) : Nat → List Char → List Char
  | _, [] => []
  | 0, l => l
  | fuel + 1, c :: t =>
    match tryKeys keys (c :: t) with
    | some p => p.1.filter (fun ch => ch != '"') ++ fixGo keys fuel p.2
    | none => c :: fixGo keys fuel t

/-- `trimDoubleQuotesOnEnumField` of the source: remove the double quotes of
the values following the given enum search words.  `[].join(sep)` is `""`,
hence an empty word list yields the single clause with an empty key. -/
def trimDoubleQuotesOnEnumField (inputStr : String) (enumSearchWords : List String) : String :=
  let keys := if enumSearchWords.isEmpty then [([] : List Char)]
              else enumSearchWords.map String.data
  String.mk (fixGo keys inputStr.data.length inputStr.data)

/-! ## Serialization (modelled from the spec)

The generic builder `graphql-query-builder` is an external dependency, not
part of this repository.  Modelled from the spec: a query document is the
root `query` node wrapping the dataset node, which carries its call arguments
and the finds `totalCount`, `pageInfo` and the data node; serialization
renders arguments as `name:value` pairs and necessarily double-quotes every
scalar string value.
-/

/-- Modelled from the spec: the document assembled by the query builder.
Its shape is fixed by `buildQuery`: root `query` wraps a dataset node with
`totalCount`, a `pageInfo` node and a data node (`edges` or `nodes`). -/
structure QueryDoc where
  datasetName : String
  args : JValue
  pageInfo : List JValue
  dataName : String
  dataFinds : List JValue

/-- Joins strings with a separator. -/
def interStr (sep : String) : List String → String
  | [] => ""
  | [x] => x
  | x :: y :: t => x ++ sep ++ interStr sep (y :: t)

mutual

/-- Modelled from the spec: serialization of an argument value.  Every scalar
string value is double-quoted; arrays and objects are rendered
recursively. -/
def serJ : JValue → String
  | .jundefined => "undefined"
  | .jnull => "null"
  | .jbool true => "true"
  | .jbool false => "false"
  | .jnum n => toString n
  | .jstr s => "\"" ++ s ++ "\""
  | .jarr l => "[" ++ interStr "," (serJList l) ++ "]"
  | .jobj kvs => "\x7b" ++ interStr ", " (serJFields kvs) ++ "\x7d"

/-- Serialization of the items of an array argument value. -/
def serJList : List JValue → List String
  | [] => []
  | v :: t => serJ v :: serJList t

/-- Serialization of the `name:value` pairs of an object argument value. -/
def serJFields : List (String × JValue) → List String
  | [] => []
  | (k, v) :: t => (k ++ ":" ++ serJ v) :: serJFields t

end

/-- Modelled from the spec: the dataset node's call arguments, rendered from
the dataset-filters object; absent (or non-object) filters render nothing. -/
def serArgs : JValue → String
  | .jobj kvs => "(" ++ interStr ", " (serJFields kvs) ++ ")"
  | _ => ""

mutual

/-- Modelled from the spec: serialization of a find item.  A plain string is
a bare field name; an object `\x7bname: sel\x7d` is a nested selection. -/
def serFind : JValue → String
  | .jstr s => s
  | .jobj kvs => interStr ", " (serFindFields kvs)
  | .jarr l => interStr ", " (serFindList l)
  | v => serJ v

/-- Serialization of a list of find items. -/
def serFindList : List JValue → List String
  | [] => []
  | v :: t => serFind v :: serFindList t

/-- Serialization of the nested selections of an object find item. -/
def serFindFields : List (String × JValue) → List String
  | [] => []
  | (k, .jarr l) :: t =>
    (k ++ "\x7b" ++ interStr ", " (serFindList l) ++ "\x7d") :: serFindFields t
  | (k, v) :: t => (k ++ "\x7b" ++ serFind v ++ "\x7d") :: serFindFields t

end

/-- Modelled from the spec: serialization of the whole document. -/
def serializeDoc (d : QueryDoc) : String :=
  "query\x7b" ++ d.datasetName ++ serArgs d.args ++ "\x7b" ++
    interStr ", "
      ["totalCount",
       "pageInfo\x7b" ++ interStr ", " (serFindList d.pageInfo) ++ "\x7d",
       d.dataName ++ "\x7b" ++ interStr ", " (serFindList d.dataFinds) ++ "\x7d"] ++
    "\x7d\x7d"

/-! ## The service -/

/-- `find` with an array spreads the array's items as find items; any other
value is a single find item. -/
def findsOf : JValue → List JValue
  | .jarr l => l
  | v => [v]

/-- The dataset name as the query-builder function name (a string per the
`GraphqlServiceOption` interface). -/
def strOf : JValue → String
  | .jstr s => s
  | _ => ""

/-- `defaultOrderBy` of the service: `\x7bsort:'id', direction:'ASC'\x7d`. -/
def defaultOrderBy : JValue :=
  .jobj [("sort", .jstr "id"), ("direction", .jstr "ASC")]

/-- The enum search words `buildQuery` passes to the fixer. -/
def enumSearchWords : List String :=
  ["sort:", "direction:", "fieldName:", "fieldOperator:"]

/-- `updateOptions` of the service:
`this.serviceOptions = \x7b...this.serviceOptions, ...serviceOptions\x7d`. -/
def updateOptions (s partialOptions : JObj) : JObj := jsSpread s partialOptions

/-- The dataset-filters composition of `buildQuery`: `datasetFilters` is the
very value of `serviceOptions.paginationOptions`; when `sortingOptions`
(resp. `filteringOptions`) is truthy, `orderBy` (resp. `filterBy`) is
assigned onto it.  In JS these assignments mutate the aliased
`paginationOptions` object in place; here the mutated object is written back
into the state when (and only when) `paginationOptions` is a stored object. -/
def applyDatasetFilters (s : JObj) : Except JErr (JValue × JObj) :=
  match (if jsTruthy (jsGet s "sortingOptions") then
           setProp (jsGet s "paginationOptions") "orderBy" (jsGet s "sortingOptions")
         else .ok (jsGet s "paginationOptions")) with
  | .error e => .error e
  | .ok filters1 =>
    match (if jsTruthy (jsGet s "filteringOptions") then
             setProp filters1 "filterBy" (jsGet s "filteringOptions")
           else .ok filters1) with
    | .error e => .error e
    | .ok filters2 =>
      .ok (filters2,
        match getKey s "paginationOptions" with
        | some (.jobj _) => setKey s "paginationOptions" filters2
        | _ => s)

/-- `buildQuery` up to serialization: the configuration check, the document
nodes, and the dataset-filters composition.  Returns the document and the
state after the aliased mutation of `paginationOptions`. -/
def buildQueryDoc (s : JObj) : Except JErr (QueryDoc × JObj) :=
  if jsFalsy (jsGet s "datasetName") || jsFalsy (jsGet s "dataFilters") then
    .error (.configError
      "GraphQL Service requires \"datasetName\" & \"dataFilters\" properties for it to work")
  else
    match applyDatasetFilters s with
    | .error e => .error e
    | .ok p =>
      .ok (⟨strOf (jsGet s "datasetName"), p.1,
            if jsTruthy (jsGet s "isWithCursor") then [.jstr "hasNextPage", .jstr "endCursor"]
            else [.jstr "hasNextPage"],
            if jsTruthy (jsGet s "isWithCursor") then "edges" else "nodes",
            if jsTruthy (jsGet s "isWithCursor") then
              [.jstr "cursor", .jobj [("node", jsGet s "dataFilters")]]
            else findsOf (jsGet s "dataFilters")⟩, p.2)

/-- `buildQuery` of the service: build the document, serialize it, and pass
the text through the enum fixer.  Returns the query text and the state after
the aliased mutation of `paginationOptions`. -/
def buildQuery (s : JObj) : Except JErr (String × JObj) :=
  match buildQueryDoc s with
  | .error e => .error e
  | .ok p =>
    .ok (trimDoubleQuotesOnEnumField (serializeDoc p.1) enumSearchWords, p.2)

/-- `onPaginationChanged` of the service: recompute `paginationOptions`
(`first` only in cursor mode; `first` and `offset = (newPage-1)*pageSize` in
offset mode), apply it via `updateOptions`, then build and return the
query. -/
def onPaginationChanged (s : JObj) (pageSize newPage : Int) : Except JErr (String × JObj) :=
  buildQuery (updateOptions s [("paginationOptions",
    if jsTruthy (jsGet s "isWithCursor") then
      .jobj [("first", .jnum pageSize)]
    else
      .jobj [("first", .jnum pageSize), ("offset", .jnum ((newPage - 1) * pageSize))])])

/-- A grid column as `onSortChanged` reads it: an optional explicit `field`
and a generic `id` (each a JS value; `field || id` selects the name). -/
structure SortCol where
  field : JValue
  id : JValue

/-- One entry of a multi-column sort. -/
structure SortColEntry where
  sortCol : SortCol
  sortAsc : Bool

/-- The `SortChangedArgs` payload of the grid: either a multi-column list or
a single column with its direction. -/
structure SortChangedArgs where
  multiColumnSort : Bool
  sortCols : Option (List SortColEntry)
  sortCol : SortCol
  sortAsc : Bool

/-- One `\x7bsort, direction\x7d` object of the orderBy array, as the loop
body of `onSortChanged` builds it: the field name is
`column.sortCol.field || column.sortCol.id`, the direction `'ASC'` or
`'DESC'` from `column.sortAsc`. -/
def sortEntryJ (e : SortColEntry) : JValue :=
  .jobj [("sort", jsOr e.sortCol.field e.sortCol.id),
         ("direction", .jstr (if e.sortAsc then "ASC" else "DESC"))]

/-- The `for (const column of sortColumns)` loop of `onSortChanged`, pushing
one entry per column in order. -/
def buildSortList : List SortColEntry → List JValue
  | [] => []
  | e :: t => sortEntryJ e :: buildSortList t

/-- `onSortChanged` of the service: normalize the payload to a column list
(single column wrapped in a one-element array), fall back to
`defaultOrderBy` when the list is empty, build the orderBy array preserving
input order, apply it via `updateOptions`, then build and return the
query. -/
def onSortChanged (s : JObj) (args : SortChangedArgs) : Except JErr (String × JObj) :=
  buildQuery (updateOptions s [("sortingOptions", .jarr
    (match (if args.multiColumnSort then args.sortCols
            else some [⟨args.sortCol, args.sortAsc⟩]) with
     | none => []
     | some [] => [defaultOrderBy]
     | some l => buildSortList l))])

/-- The first component of a successful result (empty string on error). -/
def queryOf : Except JErr (String × JObj) → String
  | .ok p => p.1
  | .error _ => ""

/-- The second component of a successful result (empty state on error). -/
def stateOf : Except JErr (String × JObj) → JObj
  | .ok p => p.2
  | .error _ => []

/-- The document of a successful `buildQueryDoc` (a dummy on error). -/
def qdocOf : Except JErr (QueryDoc × JObj) → QueryDoc
  | .ok p => p.1
  | .error _ => ⟨"", .jundefined, [], "", []⟩

/-- The state of a successful `buildQueryDoc` (empty on error). -/
def qstateOf : Except JErr (QueryDoc × JObj) → JObj
  | .ok p => p.2
  | .error _ => []

/-- Keys without duplicates: the well-formedness of every real JS object. -/
def NoDupKeys (o : JObj) : Prop := (o.map Prod.fst).Nodup

instance (o : JObj) : Decidable (NoDupKeys o) := by
  unfold NoDupKeys; infer_instance

/-- Characters on which the literal-match embedding of the fixer's regular
expression is faithful (no regex metacharacters). -/
def regexLiteralChar (c : Char) : Bool :=
  c.isAlphanum || c = ':' || c = '_' || c = '-' || c = ' '

/-! ## Concrete states used by the witnesses and counterexamples -/

/-- An option whose first alternative wins when present (`Option.orElse`,
specialized). -/
def optOr (a b : Option JValue) : Option JValue :=
  match a with
  | some v => some v
  | none => b

/-- A configured service state: dataset `users`, three data fields, an
(empty) pagination object, offset mode. -/
def usersState : JObj :=
  [("datasetName", .jstr "users"),
   ("dataFilters", .jarr [.jstr "id", .jstr "firstName", .jstr "lastName"]),
   ("paginationOptions", .jobj [])]

/-- A multi-column sort payload with zero columns. -/
def emptySortArgs : SortChangedArgs := ⟨true, some [], ⟨.jundefined, .jundefined⟩, true⟩

/-- The two-column sort of the spec's example: `lastName` ascending then
`firstName` descending, each column also carrying a distinct generic id. -/
def twoSortCols : List SortColEntry :=
  [⟨⟨.jstr "lastName", .jstr "col1"⟩, true⟩,
   ⟨⟨.jstr "firstName", .jstr "col2"⟩, false⟩]

/-- The multi-column sort payload carrying `twoSortCols`. -/
def twoSortArgs : SortChangedArgs := ⟨true, some twoSortCols, ⟨.jundefined, .jundefined⟩, true⟩

/-- A configured offset-mode state with no pagination object yet. -/
def offsetState : JObj :=
  [("datasetName", .jstr "users"), ("dataFilters", .jarr [.jstr "id"])]

/-- A configured cursor-mode state with no pagination object yet. -/
def cursorState : JObj :=
  [("datasetName", .jstr "users"), ("dataFilters", .jarr [.jstr "id"]),
   ("isWithCursor", .jbool true)]

/-- A state with both required properties set, `sortingOptions` set, but no
`paginationOptions` object. -/
def noPagSortState : JObj :=
  [("datasetName", .jstr "users"), ("dataFilters", .jarr [.jstr "id"]),
   ("sortingOptions", .jarr [defaultOrderBy])]

/-- A configured cursor-mode state with pagination, as in the code comment's
example. -/
def cursorPagState : JObj :=
  [("datasetName", .jstr "users"),
   ("dataFilters", .jarr [.jstr "name", .jstr "gender"]),
   ("isWithCursor", .jbool true),
   ("paginationOptions", .jobj [("first", .jnum 20)])]

/-- A fully configured state with pagination, sorting and filtering all
set. -/
def fullState : JObj :=
  [("datasetName", .jstr "users"),
   ("dataFilters", .jarr [.jstr "id"]),
   ("paginationOptions", .jobj [("first", .jnum 20)]),
   ("sortingOptions", .jarr [defaultOrderBy]),
   ("filteringOptions", .jarr [.jobj
     [("fieldName", .jstr "age"), ("fieldOperator", .jstr ">"),
      ("fieldValue", .jstr "20")]])]

/-- A configured state with pagination and filtering set but no sorting
options. -/
def filterOnlyState : JObj :=
  [("datasetName", .jstr "users"),
   ("dataFilters", .jarr [.jstr "id"]),
   ("paginationOptions", .jobj [("first", .jnum 20)]),
   ("filteringOptions", .jarr [.jobj
     [("fieldName", .jstr "age"), ("fieldOperator", .jstr ">"),
      ("fieldValue", .jstr "20")]])]

/-- Does the needle occur as a contiguous substring of the haystack? -/
def occursIn (needle : List Char) : List Char → Bool
  | [] => needle.isEmpty
  | c :: t => needle.isPrefixOf (c :: t) || occursIn needle t

/-- A state whose `paginationOptions` is an object with two keys (used to
observe that an update replaces the whole nested object). -/
def mergeBase : JObj :=
  [("datasetName", .jstr "users"),
   ("paginationOptions", .jobj [("first", .jnum 20), ("offset", .jnum 40)])]

/-- A partial-options object carrying a different `paginationOptions`
object. -/
def mergePatch : JObj :=
  [("paginationOptions", .jobj [("first", .jnum 10)])]

/-! ## Association-list lemmas (JS objects) -/

theorem getKey_setKey_self (l : JObj) (k : String) (v : JValue) :
    getKey (setKey l k v) k = some v := by
  induction l with
  | nil => simp [setKey, getKey]
  | cons h t ih =>
    obtain ⟨k₀, v₀⟩ := h
    by_cases hk : k₀ = k
    · simp [setKey, hk, getKey]
    · simp [setKey, hk, getKey, ih]

theorem getKey_setKey_ne (l : JObj) (k k' : String) (v : JValue) (h : k' ≠ k) :
    getKey (setKey l k v) k' = getKey l k' := by
  have hne : ¬(k = k') := fun hh => h hh.symm
  induction l with
  | nil =>
    simp only [setKey, getKey]
    rw [if_neg hne]
  | cons hd t ih =>
    obtain ⟨k₀, v₀⟩ := hd
    by_cases hk : k₀ = k
    · rw [hk]
      simp only [setKey, if_pos rfl, getKey]
      rw [if_neg hne, if_neg hne]
    · simp only [setKey, if_neg hk, getKey]
      rw [ih]

theorem optOr_none_right (a : Option JValue) : optOr a none = a := by
  cases a <;> rfl

theorem optOr_assoc (a b c : Option JValue) :
    optOr (optOr a b) c = optOr a (optOr b c) := by
  cases a <;> rfl

theorem getKey_append (xs ys : JObj) (k : String) :
    getKey (xs ++ ys) k = optOr (getKey xs k) (getKey ys k) := by
  induction xs with
  | nil => simp [getKey, optOr]
  | cons hd t ih =>
    obtain ⟨k₀, v₀⟩ := hd
    by_cases hk : k₀ = k
    · simp [getKey, hk, optOr]
    · simp [getKey, hk, ih]

theorem getKey_setKey_or (l : JObj) (k₀ k : String) (v₀ : JValue) :
    getKey (setKey l k₀ v₀) k = optOr (getKey [(k₀, v₀)] k) (getKey l k) := by
  by_cases hk : k₀ = k
  · subst hk
    simp [getKey, getKey_setKey_self, optOr]
  · simp [getKey, hk, optOr, getKey_setKey_ne l k₀ k v₀ (fun hh => hk hh.symm)]

theorem getKey_insertAll (es : JObj) : ∀ (l : JObj) (k : String),
    getKey (insertAll l es) k = optOr (getKey es.reverse k) (getKey l k) := by
  induction es with
  | nil => intro l k; simp [insertAll, getKey, optOr]
  | cons hd t ih =>
    intro l k
    obtain ⟨k₀, v₀⟩ := hd
    rw [show insertAll l ((k₀, v₀) :: t) = insertAll (setKey l k₀ v₀) t from rfl, ih]
    rw [show ((k₀, v₀) :: t).reverse = t.reverse ++ [(k₀, v₀)] from by simp]
    rw [getKey_append, optOr_assoc, getKey_setKey_or]

theorem getKey_eq_none_of_not_mem (l : JObj) (k : String)
    (h : k ∉ l.map Prod.fst) : getKey l k = none := by
  induction l with
  | nil => rfl
  | cons hd t ih =>
    obtain ⟨k₀, v₀⟩ := hd
    simp only [List.map_cons, List.mem_cons] at h
    push_neg at h
    simp only [getKey]
    rw [if_neg (fun hh : k₀ = k => h.1 hh.symm), ih h.2]

theorem getKey_reverse (l : JObj) (h : NoDupKeys l) (k : String) :
    getKey l.reverse k = getKey l k := by
  induction l with
  | nil => rfl
  | cons hd t ih =>
    obtain ⟨k₀, v₀⟩ := hd
    simp only [NoDupKeys, List.map_cons, List.nodup_cons] at h
    rw [show ((k₀, v₀) :: t).reverse = t.reverse ++ [(k₀, v₀)] from by simp]
    rw [getKey_append, ih h.2]
    by_cases hk : k₀ = k
    · subst hk
      rw [getKey_eq_none_of_not_mem t k₀ h.1]
      simp [getKey, optOr]
    · simp [getKey, hk, optOr_none_right]

theorem getKey_jsSpread (a b : JObj) (ha : NoDupKeys a) (hb : NoDupKeys b) (k : String) :
    getKey (jsSpread a b) k = optOr (getKey b k) (getKey a k) := by
  unfold jsSpread
  rw [getKey_insertAll, getKey_insertAll, getKey_reverse a ha, getKey_reverse b hb]
  simp [getKey, optOr_none_right]

theorem getKey_update_self (s : JObj) (k : String) (v : JValue) :
    getKey (updateOptions s [(k, v)]) k = some v := by
  unfold updateOptions jsSpread
  rw [show insertAll (insertAll [] s) [(k, v)] = setKey (insertAll [] s) k v from rfl]
  exact getKey_setKey_self _ k v

theorem getKey_update_ne (s : JObj) (k k' : String) (v : JValue)
    (hnd : NoDupKeys s) (h : k' ≠ k) :
    getKey (updateOptions s [(k, v)]) k' = getKey s k' := by
  unfold updateOptions jsSpread
  rw [show insertAll (insertAll [] s) [(k, v)] = setKey (insertAll [] s) k v from rfl]
  rw [getKey_setKey_ne _ k k' v h, getKey_insertAll, getKey_reverse s hnd]
  simp [getKey, optOr_none_right]

/-! ## Lemmas about the enum-unquoting fixer -/

theorem stripPfx_some (p : List Char) : ∀ l r, stripPfx p l = some r → l = p ++ r := by
  induction p with
  | nil =>
    intro l r h
    simp only [stripPfx, Option.some.injEq] at h
    simp [h]
  | cons k kt ih =>
    intro l r h
    cases l with
    | nil => simp [stripPfx] at h
    | cons c t =>
      simp only [stripPfx] at h
      split at h
      · rename_i hkc
        rw [List.cons_append, ← hkc, ih t r h]
      · exact absurd h (by simp)

theorem stripPfx_append (p r : List Char) : stripPfx p (p ++ r) = some r := by
  induction p with
  | nil => rfl
  | cons k kt ih => simp [stripPfx, ih]

theorem scanClose_some : ∀ l m r, scanClose l = some (m, r) → l = m ++ r ∧ '"' ∈ m := by
  intro l
  induction l with
  | nil => intro m r h; simp [scanClose] at h
  | cons c t ih =>
    intro m r h
    simp only [scanClose] at h
    split at h
    · rename_i hc
      simp only [Option.some.injEq, Prod.mk.injEq] at h
      rw [← h.1, ← h.2, hc]
      simp
    · split at h
      · exact absurd h (by simp)
      · cases hsc : scanClose t with
        | none => rw [hsc] at h; exact absurd h (by simp)
        | some p =>
          rw [hsc] at h
          simp only [Option.map_some', Option.some.injEq, Prod.mk.injEq] at h
          obtain ⟨hm, hr⟩ := h
          obtain ⟨ht, hq⟩ := ih p.1 p.2 (by rw [hsc])
          constructor
          · rw [← hm, ← hr, ht]; simp
          · rw [← hm]; exact List.mem_cons_of_mem c hq

theorem scanClose_clean (v : List Char) (r : List Char)
    (hq : ∀ c ∈ v, c ≠ '"') (ht : ∀ c ∈ v, isLineTerm c = false) :
    scanClose (v ++ '"' :: r) = some (v ++ ['"'], r) := by
  induction v with
  | nil => simp [scanClose]
  | cons c t ih =>
    have hc : c ≠ '"' := hq c (List.mem_cons_self c t)
    have hl : isLineTerm c = false := ht c (List.mem_cons_self c t)
    have hih := ih (fun x hx => hq x (List.mem_cons_of_mem c hx))
                   (fun x hx => ht x (List.mem_cons_of_mem c hx))
    rw [List.cons_append]
    rw [show scanClose (c :: (t ++ '"' :: r)) =
          if c = '"' then some ([c], t ++ '"' :: r)
          else if isLineTerm c then none
          else (scanClose (t ++ '"' :: r)).map (fun p => (c :: p.1, p.2)) from rfl]
    rw [if_neg hc, hl, if_neg Bool.false_ne_true, hih]
    simp

theorem quoted_some : ∀ l m r, quoted l = some (m, r) → l = m ++ r ∧ m ≠ [] ∧ '"' ∈ l := by
  intro l m r h
  unfold quoted at h
  split at h
  · rename_i t
    cases hsc : scanClose t with
    | none => rw [hsc] at h; exact absurd h (by simp)
    | some p =>
      rw [hsc] at h
      simp only [Option.map_some', Option.some.injEq, Prod.mk.injEq] at h
      obtain ⟨hm, hr⟩ := h
      obtain ⟨hts, -⟩ := scanClose_some t p.1 p.2 (by rw [hsc])
      refine ⟨?_, ?_, ?_⟩
      · rw [← hm, ← hr, hts]; simp
      · rw [← hm]; simp
      · simp
  · exact absurd h (by simp)

theorem quoted_clean (v r : List Char)
    (hq : ∀ c ∈ v, c ≠ '"') (ht : ∀ c ∈ v, isLineTerm c = false) :
    quoted ('"' :: (v ++ '"' :: r)) = some ('"' :: (v ++ ['"']), r) := by
  simp only [quoted, scanClose_clean v r hq ht, Option.map_some']

theorem quotedMap_some (key x m r : List Char)
    (h : (quoted x).map (fun p => (key ++ p.1, p.2)) = some (m, r)) :
    key ++ x = m ++ r ∧ m ≠ [] ∧ '"' ∈ x := by
  cases hq : quoted x with
  | none => rw [hq] at h; exact absurd h (by simp)
  | some p =>
    rw [hq] at h
    simp only [Option.map_some', Option.some.injEq, Prod.mk.injEq] at h
    obtain ⟨hm, hr⟩ := h
    obtain ⟨hdec, hne, hmem⟩ := quoted_some x p.1 p.2 (by rw [hq])
    refine ⟨?_, ?_, ?_⟩
    · rw [← hm, ← hr, hdec, List.append_assoc]
    · rw [← hm]; simp [hne]
    · exact hmem

theorem tryKeyCore_some : ∀ key rest₁ m r, tryKeyCore key rest₁ = some (m, r) →
    key ++ rest₁ = m ++ r ∧ m ≠ [] ∧ '"' ∈ rest₁ := by
  intro key rest₁ m r h
  unfold tryKeyCore at h
  split at h
  · rename_i r₂
    cases hq2 : quoted r₂ with
    | some p =>
      rw [hq2] at h
      simp only [Option.some.injEq, Prod.mk.injEq] at h
      obtain ⟨hm, hr⟩ := h
      obtain ⟨hdec, -, hmem⟩ := quoted_some r₂ p.1 p.2 (by rw [hq2])
      refine ⟨?_, ?_, ?_⟩
      · rw [← hm, ← hr, hdec]; simp
      · rw [← hm]; simp
      · exact List.mem_cons_of_mem 's' hmem
    | none =>
      rw [hq2] at h
      obtain ⟨hdec, hne, hmem⟩ := quotedMap_some key ('s' :: r₂) m r h
      exact ⟨hdec, hne, hmem⟩
  · exact quotedMap_some key rest₁ m r h

theorem tryKey_some : ∀ key l m r, tryKey key l = some (m, r) →
    l = m ++ r ∧ m ≠ [] ∧ '"' ∈ l := by
  intro key l m r h
  unfold tryKey at h
  split at h
  · rename_i rest₁ hsp
    obtain ⟨hdec, hne, hmem⟩ := tryKeyCore_some key rest₁ m r h
    have hl : l = key ++ rest₁ := stripPfx_some key l rest₁ hsp
    refine ⟨by rw [hl, hdec], hne, by rw [hl]; exact List.mem_append_right key hmem⟩
  · exact absurd h (by simp)

theorem tryKeys_some : ∀ ks l m r, tryKeys ks l = some (m, r) →
    l = m ++ r ∧ m ≠ [] ∧ '"' ∈ l := by
  intro ks
  induction ks with
  | nil => intro l m r h; simp [tryKeys] at h
  | cons k kt ih =>
    intro l m r h
    simp only [tryKeys] at h
    cases htk : tryKey k l with
    | some p =>
      simp only [htk, Option.some.injEq] at h
      rw [h] at htk
      exact tryKey_some k l m r htk
    | none =>
      simp only [htk] at h
      exact ih l m r h

theorem tryKeys_none_of_no_quote (ks : List (List Char)) (l : List Char)
    (h : ∀ c ∈ l, c ≠ '"') : tryKeys ks l = none := by
  cases htk : tryKeys ks l with
  | none => rfl
  | some p =>
    obtain ⟨-, -, hmem⟩ := tryKeys_some ks l p.1 p.2 (by rw [htk])
    exact absurd rfl (h '"' hmem)

theorem fixGo_nil (keys : List (List Char)) (f : Nat) : fixGo keys f [] = [] := by
  cases f <;> rfl

theorem fixGo_zero (keys : List (List Char)) (l : List Char) : fixGo keys 0 l = l := by
  cases l <;> rfl

theorem fixGo_succ_some (keys : List (List Char)) (f : Nat) (c : Char) (t : List Char)
    (p : List Char × List Char) (h : tryKeys keys (c :: t) = some p) :
    fixGo keys (f + 1) (c :: t) =
      p.1.filter (fun ch => ch != '"') ++ fixGo keys f p.2 := by
  show (match tryKeys keys (c :: t) with
        | some p => p.1.filter (fun ch => ch != '"') ++ fixGo keys f p.2
        | none => c :: fixGo keys f t) = _
  rw [h]

theorem fixGo_succ_none (keys : List (List Char)) (f : Nat) (c : Char) (t : List Char)
    (h : tryKeys keys (c :: t) = none) :
    fixGo keys (f + 1) (c :: t) = c :: fixGo keys f t := by
  show (match tryKeys keys (c :: t) with
        | some p => p.1.filter (fun ch => ch != '"') ++ fixGo keys f p.2
        | none => c :: fixGo keys f t) = _
  rw [h]

theorem fixGo_no_quote (keys : List (List Char)) :
    ∀ (f : Nat) (l : List Char), (∀ c ∈ l, c ≠ '"') → fixGo keys f l = l := by
  intro f
  induction f with
  | zero => intro l _; exact fixGo_zero keys l
  | succ f ih =>
    intro l h
    cases l with
    | nil => exact fixGo_nil keys _
    | cons c t =>
      rw [fixGo_succ_none keys f c t (tryKeys_none_of_no_quote keys (c :: t) h)]
      rw [ih t (fun x hx => h x (List.mem_cons_of_mem c hx))]

theorem fixGo_fuel (keys : List (List Char)) :
    ∀ (f : Nat) (l : List Char), l.length ≤ f →
      fixGo keys f l = fixGo keys l.length l := by
  intro f
  induction f using Nat.strong_induction_on with
  | _ f ih =>
    intro l hl
    cases l with
    | nil => simp [fixGo_nil]
    | cons c t =>
      have hlen : t.length + 1 ≤ f := by simpa using hl
      obtain ⟨f', rfl⟩ : ∃ f', f = f' + 1 := ⟨f - 1, by omega⟩
      rw [show (c :: t).length = t.length + 1 from rfl]
      cases htk : tryKeys keys (c :: t) with
      | none =>
        rw [fixGo_succ_none keys f' c t htk, fixGo_succ_none keys t.length c t htk]
        rw [ih f' (by omega) t (by omega), ih t.length (by omega) t le_rfl]
      | some p =>
        rw [fixGo_succ_some keys f' c t p htk, fixGo_succ_some keys t.length c t p htk]
        obtain ⟨hdec, hne, -⟩ := tryKeys_some keys (c :: t) p.1 p.2 htk
        have hp1 : 1 ≤ p.1.length := List.length_pos.mpr hne
        have hplen : p.2.length ≤ t.length := by
          have := congrArg List.length hdec
          simp only [List.length_cons, List.length_append] at this
          omega
        rw [ih f' (by omega) p.2 (by omega),
            ih t.length (by omega) p.2 hplen]

/-! ## Lemmas about the service -/

theorem buildSortList_eq_map (l : List SortColEntry) :
    buildSortList l = l.map sortEntryJ := by
  induction l with
  | nil => rfl
  | cons e t ih => simp [buildSortList, ih]

theorem setProp_no_config (target : JValue) (k : String) (v : JValue) (m : String) :
    setProp target k v ≠ .error (.configError m) := by
  unfold setProp
  split <;> simp

theorem applyDatasetFilters_state (s : JObj) (f2 : JValue) (s' : JObj)
    (h : applyDatasetFilters s = .ok (f2, s')) :
    s' = s ∨ s' = setKey s "paginationOptions" f2 := by
  unfold applyDatasetFilters at h
  split at h
  · exact absurd h (by simp)
  · split at h
    · exact absurd h (by simp)
    · rename_i filters1 _ filters2 _
      simp only [Except.ok.injEq, Prod.mk.injEq] at h
      obtain ⟨hf, hs⟩ := h
      rw [← hs, ← hf]
      split
      · right; rfl
      · left; rfl

theorem applyDatasetFilters_no_config (s : JObj) (m : String)
    (h : applyDatasetFilters s = .error (.configError m)) : False := by
  unfold applyDatasetFilters at h
  split at h
  · rename_i e hsort
    simp only [Except.error.injEq] at h
    rw [h] at hsort
    split at hsort
    · exact setProp_no_config _ _ _ m hsort
    · exact absurd hsort (by simp)
  · split at h
    · rename_i e hfil
      simp only [Except.error.injEq] at h
      rw [h] at hfil
      split at hfil
      · exact setProp_no_config _ _ _ m hfil
      · exact absurd hfil (by simp)
    · exact absurd h (by simp)

theorem buildQueryDoc_ok_elim (s : JObj) (doc : QueryDoc) (s' : JObj)
    (h : buildQueryDoc s = .ok (doc, s')) :
    (jsFalsy (jsGet s "datasetName") || jsFalsy (jsGet s "dataFilters")) = false ∧
    applyDatasetFilters s = .ok (doc.args, s') ∧
    doc.datasetName = strOf (jsGet s "datasetName") ∧
    doc.pageInfo = (if jsTruthy (jsGet s "isWithCursor") then
                      [.jstr "hasNextPage", .jstr "endCursor"]
                    else [.jstr "hasNextPage"]) ∧
    doc.dataName = (if jsTruthy (jsGet s "isWithCursor") then "edges" else "nodes") ∧
    doc.dataFinds = (if jsTruthy (jsGet s "isWithCursor") then
                       [.jstr "cursor", .jobj [("node", jsGet s "dataFilters")]]
                     else findsOf (jsGet s "dataFilters")) := by
  unfold buildQueryDoc at h
  split at h
  · exact absurd h (by simp)
  · rename_i hreq
    split at h
    · exact absurd h (by simp)
    · rename_i p hap
      simp only [Except.ok.injEq, Prod.mk.injEq] at h
      obtain ⟨hdoc, hs⟩ := h
      subst hdoc
      refine ⟨by simpa using hreq, ?_, rfl, rfl, rfl, rfl⟩
      rw [show (⟨strOf (jsGet s "datasetName"), p.1, _, _, _⟩ : QueryDoc).args = p.1 from rfl]
      rw [← hs]
      exact hap

theorem buildQuery_ok_elim (s : JObj) (q : String) (s' : JObj)
    (h : buildQuery s = .ok (q, s')) :
    ∃ doc, buildQueryDoc s = .ok (doc, s') ∧
      q = trimDoubleQuotesOnEnumField (serializeDoc doc) enumSearchWords := by
  unfold buildQuery at h
  split at h
  · exact absurd h (by simp)
  · rename_i p hdoc
    simp only [Except.ok.injEq, Prod.mk.injEq] at h
    obtain ⟨hq, hs⟩ := h
    exact ⟨p.1, by rw [hdoc, ← hs], hq.symm⟩

theorem buildQuery_err_elim (s : JObj) (e : JErr)
    (h : buildQuery s = .error e) : buildQueryDoc s = .error e := by
  unfold buildQuery at h
  split at h
  · rename_i e' hdoc
    simp only [Except.error.injEq] at h
    rw [← h]
    exact hdoc
  · exact absurd h (by simp)

theorem buildQuery_preserve (s : JObj) (q : String) (s' : JObj) (k : String)
    (hk : k ≠ "paginationOptions") (h : buildQuery s = .ok (q, s')) :
    getKey s' k = getKey s k := by
  obtain ⟨doc, hdoc, -⟩ := buildQuery_ok_elim s q s' h
  obtain ⟨-, hap, -⟩ := buildQueryDoc_ok_elim s doc s' hdoc
  rcases applyDatasetFilters_state s doc.args s' hap with hss | hss
  · rw [hss]
  · rw [hss, getKey_setKey_ne _ _ _ _ hk]

/-! ## Further fixer lemmas -/

theorem trim_no_quote_id (t : String) (ks : List String)
    (h : ∀ c ∈ t.data, c ≠ '"') : trimDoubleQuotesOnEnumField t ks = t := by
  show String.mk (fixGo (if ks.isEmpty then [([] : List Char)] else ks.map String.data)
         t.data.length t.data) = t
  rw [fixGo_no_quote _ _ t.data h]

theorem fixGo_of_tryKeys (keys : List (List Char)) (l m r : List Char)
    (h : tryKeys keys l = some (m, r)) :
    fixGo keys l.length l = m.filter (fun ch => ch != '"') ++ fixGo keys r.length r := by
  cases l with
  | nil =>
    obtain ⟨-, -, hmem⟩ := tryKeys_some keys [] m r h
    simp at hmem
  | cons c t =>
    rw [show (c :: t).length = t.length + 1 from rfl]
    rw [fixGo_succ_some keys t.length c t (m, r) h]
    obtain ⟨hdec, hne, -⟩ := tryKeys_some keys (c :: t) m r h
    have hlen : r.length ≤ t.length := by
      have h1 := congrArg List.length hdec
      simp only [List.length_cons, List.length_append] at h1
      have h2 := List.length_pos.mpr hne
      omega
    rw [fixGo_fuel keys t.length r hlen]

/-! ## Claim C2 -/

/-- C2 (counterexample): on the spec's literal example — enum keys
`sort:`, `direction:` and input `sort:"lastName", direction:"ASC"` — the
fixer does NOT return `sort: lastName, direction: ASC`: the replacement only
deletes the quote characters of a match and never inserts a space after the
key's colon. -/
theorem c2_counterexample :
    trimDoubleQuotesOnEnumField "sort:\"lastName\", direction:\"ASC\"" ["sort:", "direction:"]
      ≠ "sort: lastName, direction: ASC" := by decide

/-- C2 (amended): for the enum key list `["sort:", "direction:"]` and input
`sort:"lastName", direction:"ASC"`, `trimDoubleQuotesOnEnumField` returns
exactly `sort:lastName, direction:ASC` — the quotes are stripped, with no
space inserted between a key's colon and the bare value. -/
theorem c2_amended :
    trimDoubleQuotesOnEnumField "sort:\"lastName\", direction:\"ASC\"" ["sort:", "direction:"]
      = "sort:lastName, direction:ASC" := by decide

/-! ## Claim C7 -/

/-- C7 (counterexample): the fixer is not idempotent.  With keys
`sort:`, `direction:` and input `sort:"direction:""ASC"`, one application
yields `sort:direction:"ASC"` (the lazy group swallows the quoted text
`direction:` as the value of `sort:`), and a second application then matches
the newly exposed `direction:"ASC"` and yields `sort:direction:ASC`. -/
theorem c7_counterexample :
    trimDoubleQuotesOnEnumField
        (trimDoubleQuotesOnEnumField "sort:\"direction:\"\"ASC\"" ["sort:", "direction:"])
        ["sort:", "direction:"]
      ≠ trimDoubleQuotesOnEnumField "sort:\"direction:\"\"ASC\"" ["sort:", "direction:"] := by
  decide

/-- C7 (amended): the fixer is idempotent on every input whose once-fixed
text contains no double-quote character (for key lists on which the
literal-match embedding is faithful, i.e. without regex metacharacters):
every clause of the pattern requires a literal `"`, so a quote-free text has
no match and is returned unchanged.  In general idempotence fails — see the
counterexample, where a quoted value itself contains an enum key. -/
theorem c7_amended (s : String) (ks : List String)
    (_hks : ∀ k ∈ ks, ∀ c ∈ k.data, regexLiteralChar c = true)
    (hfix : ∀ c ∈ (trimDoubleQuotesOnEnumField s ks).data, c ≠ '"') :
    trimDoubleQuotesOnEnumField (trimDoubleQuotesOnEnumField s ks) ks
      = trimDoubleQuotesOnEnumField s ks :=
  trim_no_quote_id (trimDoubleQuotesOnEnumField s ks) ks hfix

/-- C7 (witness): the amended idempotence at the concrete fixed text of
`sort:"lastName"`. -/
theorem c7_amended_witness :
    trimDoubleQuotesOnEnumField
        (trimDoubleQuotesOnEnumField "sort:\"lastName\"" ["sort:"]) ["sort:"]
      = trimDoubleQuotesOnEnumField "sort:\"lastName\"" ["sort:"] :=
  c7_amended "sort:\"lastName\"" ["sort:"] (by decide) (by decide)

/-! ## Claim C8 -/

/-- C8 (counterexample): a quoted value containing an internal quote does
NOT have all its quote characters removed.  On `sort:"a"b"` with key
`sort:`, the lazy group matches only up to the first closing quote, so the
output is `sort:ab"` — the third quote character survives — and not
`sort:ab` as the claim would require. -/
theorem c8_counterexample :
    trimDoubleQuotesOnEnumField "sort:\"a\"b\"" ["sort:"] = "sort:ab\"" ∧
    trimDoubleQuotesOnEnumField "sort:\"a\"b\"" ["sort:"] ≠ "sort:ab" :=
  ⟨by decide, by decide⟩

/-- C8 (amended): the lazy group `(".*?")` ends at the FIRST closing quote,
so exactly the two delimiting quote characters of that minimal match are
removed (the quote-free value between them is kept verbatim), and scanning
resumes after the match: any further quote characters of a malformed value
are left to the independent processing of the remainder. -/
theorem c8_amended (v rest : List Char)
    (hq : ∀ c ∈ v, c ≠ '"') (ht : ∀ c ∈ v, isLineTerm c = false) :
    trimDoubleQuotesOnEnumField
        (String.mk ("sort:".data ++ '"' :: (v ++ '"' :: rest))) ["sort:"]
      = String.mk ("sort:".data ++
          (v ++ (trimDoubleQuotesOnEnumField (String.mk rest) ["sort:"]).data)) := by
  have h1 : stripPfx "sort:".data ("sort:".data ++ '"' :: (v ++ '"' :: rest))
      = some ('"' :: (v ++ '"' :: rest)) := stripPfx_append _ _
  have h2 : quoted ('"' :: (v ++ '"' :: rest)) = some ('"' :: (v ++ ['"']), rest) :=
    quoted_clean v rest hq ht
  have h3 : tryKey "sort:".data ("sort:".data ++ '"' :: (v ++ '"' :: rest))
      = some ("sort:".data ++ ('"' :: (v ++ ['"'])), rest) := by
    unfold tryKey
    simp only [h1]
    show (quoted ('"' :: (v ++ '"' :: rest))).map
        (fun p => ("sort:".data ++ p.1, p.2)) = _
    rw [h2]
    rfl
  have hkeys : tryKeys ["sort:".data] ("sort:".data ++ '"' :: (v ++ '"' :: rest))
      = some ("sort:".data ++ ('"' :: (v ++ ['"'])), rest) := by
    simp only [tryKeys, h3]
  show String.mk (fixGo ["sort:".data]
        ("sort:".data ++ '"' :: (v ++ '"' :: rest)).length
        ("sort:".data ++ '"' :: (v ++ '"' :: rest)))
      = _
  apply congrArg String.mk
  rw [fixGo_of_tryKeys ["sort:".data] _ _ rest hkeys]
  have hfv : v.filter (fun ch => ch != '"') = v :=
    List.filter_eq_self.mpr (fun a ha => by simpa [bne_iff_ne] using hq a ha)
  simp only [List.filter_append, List.filter_cons, hfv]
  show "sort:".data.filter (fun ch => ch != '"') ++
      ((if ('"' != '"') = true then _ else _) ++ _) = _
  rw [if_neg (by decide)]
  have hsf : "sort:".data.filter (fun ch => ch != '"') = "sort:".data := by decide
  rw [hsf]
  simp only [List.append_assoc, List.nil_append]
  rfl

/-- C8 (witness): the amended statement at the concrete value `a` and
remainder `b"`, recovering the counterexample's actual output. -/
theorem c8_amended_witness :
    trimDoubleQuotesOnEnumField
        (String.mk ("sort:".data ++ '"' :: (['a'] ++ '"' :: ['b', '"']))) ["sort:"]
      = String.mk ("sort:".data ++
          (['a'] ++ (trimDoubleQuotesOnEnumField (String.mk ['b', '"']) ["sort:"]).data)) :=
  c8_amended ['a'] ['b', '"'] (by decide) (by decide)

/-! ## Claim C9 -/

/-- C9: `updateOptions` performs a shallow merge.  For well-formed objects
(unique keys): every top-level key present in the partial options maps in
the merged state to exactly the partial's value — the whole nested value
replaces the old one, with no recursive merge — and every key absent from
the partial keeps exactly its old value. -/
theorem c9_updateOptions (a b : JObj) (ha : NoDupKeys a) (hb : NoDupKeys b) (k : String) :
    (∀ v, getKey b k = some v → getKey (updateOptions a b) k = some v) ∧
    (getKey b k = none → getKey (updateOptions a b) k = getKey a k) := by
  have h := getKey_jsSpread a b ha hb k
  constructor
  · intro v hv
    rw [show updateOptions a b = jsSpread a b from rfl, h, hv]
    rfl
  · intro hn
    rw [show updateOptions a b = jsSpread a b from rfl, h, hn]
    rfl

/-- C9 (witness): merging `mergePatch` into `mergeBase` replaces the whole
`paginationOptions` object (`offset` does not survive — no deep merge) and
leaves `datasetName` untouched. -/
theorem c9_updateOptions_witness :
    (∀ v, getKey mergePatch "paginationOptions" = some v →
        getKey (updateOptions mergeBase mergePatch) "paginationOptions" = some v) ∧
    (getKey mergePatch "paginationOptions" = none →
        getKey (updateOptions mergeBase mergePatch) "paginationOptions"
          = getKey mergeBase "paginationOptions") :=
  c9_updateOptions mergeBase mergePatch (by decide) (by decide) "paginationOptions"

/-! ## Claim C3 -/

/-- C3: mode consistency of the assembled document.  For every state on
which the document is successfully built: in cursor mode the `pageInfo`
selection is `hasNextPage, endCursor` and the data node is `edges` with
`cursor` plus a nested `node` holding the caller's field selection; in
offset mode the `pageInfo` selection is `hasNextPage` only (`endCursor` is
absent) and the data node is `nodes` with the field selection directly. -/
theorem c3_mode_consistency (s : JObj) (doc : QueryDoc) (s' : JObj)
    (h : buildQueryDoc s = .ok (doc, s')) :
    (jsTruthy (jsGet s "isWithCursor") = true →
       doc.pageInfo = [.jstr "hasNextPage", .jstr "endCursor"] ∧
       doc.dataName = "edges" ∧
       doc.dataFinds = [.jstr "cursor", .jobj [("node", jsGet s "dataFilters")]]) ∧
    (jsTruthy (jsGet s "isWithCursor") = false →
       doc.pageInfo = [.jstr "hasNextPage"] ∧
       JValue.jstr "endCursor" ∉ doc.pageInfo ∧
       doc.dataName = "nodes" ∧
       doc.dataFinds = findsOf (jsGet s "dataFilters")) := by
  obtain ⟨-, -, -, hpi, hdn, hdf⟩ := buildQueryDoc_ok_elim s doc s' h
  constructor
  · intro hc
    rw [hc] at hpi hdn hdf
    simp only [if_pos rfl] at hpi hdn hdf
    exact ⟨hpi, hdn, hdf⟩
  · intro hc
    rw [hc] at hpi hdn hdf
    simp only [if_neg Bool.false_ne_true] at hpi hdn hdf
    refine ⟨hpi, ?_, hdn, hdf⟩
    intro hmem
    rw [hpi] at hmem
    have h2 := List.mem_singleton.mp hmem
    injection h2 with h3
    exact absurd h3 (by decide)

/-- C3 (witness): the mode-consistency conclusions at the concrete
cursor-mode state `cursorPagState`. -/
theorem c3_mode_consistency_witness :
    (jsTruthy (jsGet cursorPagState "isWithCursor") = true →
       (qdocOf (buildQueryDoc cursorPagState)).pageInfo
         = [.jstr "hasNextPage", .jstr "endCursor"] ∧
       (qdocOf (buildQueryDoc cursorPagState)).dataName = "edges" ∧
       (qdocOf (buildQueryDoc cursorPagState)).dataFinds
         = [.jstr "cursor", .jobj [("node", jsGet cursorPagState "dataFilters")]]) ∧
    (jsTruthy (jsGet cursorPagState "isWithCursor") = false →
       (qdocOf (buildQueryDoc cursorPagState)).pageInfo = [.jstr "hasNextPage"] ∧
       JValue.jstr "endCursor" ∉ (qdocOf (buildQueryDoc cursorPagState)).pageInfo ∧
       (qdocOf (buildQueryDoc cursorPagState)).dataName = "nodes" ∧
       (qdocOf (buildQueryDoc cursorPagState)).dataFinds
         = findsOf (jsGet cursorPagState "dataFilters")) :=
  c3_mode_consistency cursorPagState (qdocOf (buildQueryDoc cursorPagState))
    (qstateOf (buildQueryDoc cursorPagState)) (by rfl)

/-! ## Claim C4 -/

/-- C4 (counterexample): calling `onSortChanged` with an empty multi-column
sort on a configured state does produce a query, but its text contains
`orderBy:[\x7bsort:id, direction:ASC\x7d]` — without the space after the
colon that the claim's `orderBy:[\x7bsort: id, direction: ASC\x7d]`
requires (the fixer strips quotes without inserting a space). -/
theorem c4_counterexample :
    occursIn "orderBy:[\x7bsort: id, direction: ASC\x7d]".data
        (queryOf (onSortChanged usersState emptySortArgs)).data = false ∧
    occursIn "orderBy:[\x7bsort:id, direction:ASC\x7d]".data
        (queryOf (onSortChanged usersState emptySortArgs)).data = true ∧
    onSortChanged usersState emptySortArgs
      = .ok (queryOf (onSortChanged usersState emptySortArgs),
             stateOf (onSortChanged usersState emptySortArgs)) :=
  ⟨by decide, by decide, rfl⟩

/-- C4 (amended): `onSortChanged` with an empty multi-column sort sequence
sets `sortingOptions` to the single default entry
`\x7bsort:'id', direction:'ASC'\x7d`, and (at the concrete configured
state) the returned query text contains
`orderBy:[\x7bsort:id, direction:ASC\x7d]` with the enum values unquoted
and no space after the colons. -/
theorem c4_sort_default (s : JObj) (args : SortChangedArgs) (q : String) (s' : JObj)
    (hm : args.multiColumnSort = true) (hc : args.sortCols = some [])
    (hok : onSortChanged s args = .ok (q, s')) :
    getKey s' "sortingOptions"
      = some (.jarr [.jobj [("sort", .jstr "id"), ("direction", .jstr "ASC")]]) ∧
    (s = usersState → args = emptySortArgs →
       occursIn "orderBy:[\x7bsort:id, direction:ASC\x7d]".data q.data = true) := by
  constructor
  · have he : onSortChanged s args
        = buildQuery (updateOptions s [("sortingOptions", .jarr [defaultOrderBy])]) := by
      unfold onSortChanged
      rw [hm, hc]
      rfl
    rw [he] at hok
    have h2 := buildQuery_preserve _ q s' "sortingOptions" (by decide) hok
    rw [h2, getKey_update_self]
    rfl
  · intro hs ha
    subst hs; subst ha
    have hq : q = queryOf (onSortChanged usersState emptySortArgs) := by rw [hok]; rfl
    rw [hq]
    decide

/-- C4 (witness): the amended statement at the concrete configured state
and the empty multi-column sort payload. -/
theorem c4_sort_default_witness :
    getKey (stateOf (onSortChanged usersState emptySortArgs)) "sortingOptions"
      = some (.jarr [.jobj [("sort", .jstr "id"), ("direction", .jstr "ASC")]]) ∧
    (usersState = usersState → emptySortArgs = emptySortArgs →
       occursIn "orderBy:[\x7bsort:id, direction:ASC\x7d]".data
         (queryOf (onSortChanged usersState emptySortArgs)).data = true) :=
  c4_sort_default usersState emptySortArgs
    (queryOf (onSortChanged usersState emptySortArgs))
    (stateOf (onSortChanged usersState emptySortArgs)) rfl rfl rfl

/-! ## Claim C5 -/

/-- C5 (counterexample): on the two-column example the returned text
contains `orderBy:[\x7bsort:lastName, direction:ASC\x7d,...]` without the
space after the colon that the claim's
`orderBy:[\x7bsort: lastName, direction: ASC\x7d,...]` requires. -/
theorem c5_counterexample :
    occursIn "orderBy:[\x7bsort: lastName, direction: ASC\x7d".data
        (queryOf (onSortChanged usersState twoSortArgs)).data = false ∧
    occursIn
        "orderBy:[\x7bsort:lastName, direction:ASC\x7d,\x7bsort:firstName, direction:DESC\x7d]".data
        (queryOf (onSortChanged usersState twoSortArgs)).data = true ∧
    onSortChanged usersState twoSortArgs
      = .ok (queryOf (onSortChanged usersState twoSortArgs),
             stateOf (onSortChanged usersState twoSortArgs)) :=
  ⟨by decide, by decide, rfl⟩

/-- C5 (amended): for every non-empty multi-column sort sequence,
`onSortChanged` stores `sortingOptions` as the input-ordered map of each
column to `\x7bsort, direction\x7d`, where `sortEntryJ` resolves the field
name as `field || id` (the explicit field identifier wins over the generic
id) and the direction as `ASC`/`DESC` from `sortAsc`; on the two-column
example the returned text contains
`orderBy:[\x7bsort:lastName, direction:ASC\x7d,\x7bsort:firstName, direction:DESC\x7d]`
in that order (enum values unquoted, no space after the colons). -/
theorem c5_sort_multi (s : JObj) (args : SortChangedArgs) (cols : List SortColEntry)
    (q : String) (s' : JObj)
    (hm : args.multiColumnSort = true) (hc : args.sortCols = some cols)
    (hne : cols ≠ []) (hok : onSortChanged s args = .ok (q, s')) :
    getKey s' "sortingOptions" = some (.jarr (cols.map sortEntryJ)) ∧
    (s = usersState → args = twoSortArgs →
       occursIn
         "orderBy:[\x7bsort:lastName, direction:ASC\x7d,\x7bsort:firstName, direction:DESC\x7d]".data
         q.data = true) := by
  constructor
  · have he : onSortChanged s args
        = buildQuery (updateOptions s [("sortingOptions", .jarr (buildSortList cols))]) := by
      unfold onSortChanged
      rw [hm, hc]
      cases cols with
      | nil => exact absurd rfl hne
      | cons e t => rfl
    rw [he] at hok
    have h2 := buildQuery_preserve _ q s' "sortingOptions" (by decide) hok
    rw [h2, getKey_update_self, buildSortList_eq_map]
  · intro hs ha
    subst hs; subst ha
    have hq : q = queryOf (onSortChanged usersState twoSortArgs) := by rw [hok]; rfl
    rw [hq]
    decide

/-- C5 (witness): the amended statement at the concrete configured state
and the two-column sort payload. -/
theorem c5_sort_multi_witness :
    getKey (stateOf (onSortChanged usersState twoSortArgs)) "sortingOptions"
      = some (.jarr (twoSortCols.map sortEntryJ)) ∧
    (usersState = usersState → twoSortArgs = twoSortArgs →
       occursIn
         "orderBy:[\x7bsort:lastName, direction:ASC\x7d,\x7bsort:firstName, direction:DESC\x7d]".data
         (queryOf (onSortChanged usersState twoSortArgs)).data = true) :=
  c5_sort_multi usersState twoSortArgs twoSortCols
    (queryOf (onSortChanged usersState twoSortArgs))
    (stateOf (onSortChanged usersState twoSortArgs))
    rfl rfl (by simp [twoSortCols]) rfl

/-! ## More service lemmas -/

theorem jsGet_update_self (s : JObj) (k : String) (v : JValue) :
    jsGet (updateOptions s [(k, v)]) k = v := by
  unfold jsGet
  rw [getKey_update_self]

theorem jsGet_update_ne (s : JObj) (k k' : String) (v : JValue)
    (hnd : NoDupKeys s) (h : k' ≠ k) :
    jsGet (updateOptions s [(k, v)]) k' = jsGet s k' := by
  unfold jsGet
  rw [getKey_update_ne s k k' v hnd h]

theorem applyDatasetFilters_no_writes (s : JObj)
    (hns : jsTruthy (jsGet s "sortingOptions") = false)
    (hnf : jsTruthy (jsGet s "filteringOptions") = false) :
    applyDatasetFilters s = .ok (jsGet s "paginationOptions",
      match getKey s "paginationOptions" with
      | some (.jobj _) => setKey s "paginationOptions" (jsGet s "paginationOptions")
      | _ => s) := by
  unfold applyDatasetFilters
  rw [hns, hnf]
  simp

theorem applyDatasetFilters_ok_iff (s : JObj) :
    (∃ p, applyDatasetFilters s = .ok p) ↔
    ((jsTruthy (jsGet s "sortingOptions") || jsTruthy (jsGet s "filteringOptions")) = true →
       isJObj (jsGet s "paginationOptions") = true) := by
  unfold applyDatasetFilters
  cases hsort : jsTruthy (jsGet s "sortingOptions") <;>
    cases hfil : jsTruthy (jsGet s "filteringOptions") <;>
      cases hpag : jsGet s "paginationOptions" <;>
        simp [setProp, isJObj]

/-! ## Claim C6 -/

/-- C6: `onPaginationChanged` stores, in offset mode, the pagination object
`\x7bfirst: pageSize, offset: (newPage-1)*pageSize\x7d` and, in cursor
mode, `\x7bfirst: pageSize\x7d` only; at the concrete example
(`pageSize = 20`, `newPage = 3`) the returned query text contains
`first:20` and `offset:40` in offset mode, and no `offset` at all in cursor
mode.  (The state is assumed to carry no sorting and no filtering options,
which would otherwise be written into the same pagination object by
`buildQuery`.) -/
theorem c6_pagination (s : JObj) (ps np : Int) (q : String) (s' : JObj)
    (hnd : NoDupKeys s)
    (hns : jsTruthy (jsGet s "sortingOptions") = false)
    (hnf : jsTruthy (jsGet s "filteringOptions") = false)
    (hok : onPaginationChanged s ps np = .ok (q, s')) :
    (jsTruthy (jsGet s "isWithCursor") = false →
       getKey s' "paginationOptions"
         = some (.jobj [("first", .jnum ps), ("offset", .jnum ((np - 1) * ps))])) ∧
    (jsTruthy (jsGet s "isWithCursor") = true →
       getKey s' "paginationOptions" = some (.jobj [("first", .jnum ps)])) ∧
    (s = offsetState → ps = 20 → np = 3 →
       occursIn "first:20".data q.data = true ∧
       occursIn "offset:40".data q.data = true) ∧
    (s = cursorState → ps = 20 → np = 3 →
       occursIn "offset".data q.data = false ∧
       occursIn "first:20".data q.data = true) := by
  have main : ∀ pagv : JValue,
      buildQuery (updateOptions s [("paginationOptions", pagv)]) = .ok (q, s') →
      getKey s' "paginationOptions" = some pagv := by
    intro pagv hbq
    obtain ⟨doc, hdoc, -⟩ := buildQuery_ok_elim _ q s' hbq
    obtain ⟨-, hap, -⟩ := buildQueryDoc_ok_elim _ doc s' hdoc
    have hns' : jsTruthy (jsGet (updateOptions s [("paginationOptions", pagv)])
        "sortingOptions") = false := by
      rw [jsGet_update_ne s _ _ _ hnd (by decide)]; exact hns
    have hnf' : jsTruthy (jsGet (updateOptions s [("paginationOptions", pagv)])
        "filteringOptions") = false := by
      rw [jsGet_update_ne s _ _ _ hnd (by decide)]; exact hnf
    have hnw := applyDatasetFilters_no_writes _ hns' hnf'
    rw [hnw] at hap
    have hget : getKey (updateOptions s [("paginationOptions", pagv)])
        "paginationOptions" = some pagv := getKey_update_self s _ pagv
    have hjget : jsGet (updateOptions s [("paginationOptions", pagv)])
        "paginationOptions" = pagv := jsGet_update_self s _ pagv
    rw [hget, hjget] at hap
    simp only [Except.ok.injEq, Prod.mk.injEq] at hap
    obtain ⟨-, hs'⟩ := hap
    rw [← hs']
    cases pagv with
    | jobj fs => exact getKey_setKey_self _ _ _
    | jundefined => exact hget
    | jnull => exact hget
    | jbool b => exact hget
    | jnum n => exact hget
    | jstr st => exact hget
    | jarr l => exact hget
  refine ⟨?_, ?_, ?_, ?_⟩
  · intro hc
    apply main
    unfold onPaginationChanged at hok
    rw [hc] at hok
    simpa using hok
  · intro hc
    apply main
    unfold onPaginationChanged at hok
    rw [hc] at hok
    simpa using hok
  · intro hs hps hnp
    subst hs; subst hps; subst hnp
    have hq : q = queryOf (onPaginationChanged offsetState 20 3) := by rw [hok]; rfl
    rw [hq]
    exact ⟨by decide, by decide⟩
  · intro hs hps hnp
    subst hs; subst hps; subst hnp
    have hq : q = queryOf (onPaginationChanged cursorState 20 3) := by rw [hok]; rfl
    rw [hq]
    exact ⟨by decide, by decide⟩

/-- C6 (witness): the statement at the concrete offset-mode state with
`pageSize = 20`, `newPage = 3`. -/
theorem c6_pagination_witness :
    (jsTruthy (jsGet offsetState "isWithCursor") = false →
       getKey (stateOf (onPaginationChanged offsetState 20 3)) "paginationOptions"
         = some (.jobj [("first", .jnum 20), ("offset", .jnum ((3 - 1) * 20))])) ∧
    (jsTruthy (jsGet offsetState "isWithCursor") = true →
       getKey (stateOf (onPaginationChanged offsetState 20 3)) "paginationOptions"
         = some (.jobj [("first", .jnum 20)])) ∧
    (offsetState = offsetState → (20 : Int) = 20 → (3 : Int) = 3 →
       occursIn "first:20".data (queryOf (onPaginationChanged offsetState 20 3)).data = true ∧
       occursIn "offset:40".data (queryOf (onPaginationChanged offsetState 20 3)).data = true) ∧
    (offsetState = cursorState → (20 : Int) = 20 → (3 : Int) = 3 →
       occursIn "offset".data (queryOf (onPaginationChanged offsetState 20 3)).data = false ∧
       occursIn "first:20".data (queryOf (onPaginationChanged offsetState 20 3)).data = true) :=
  c6_pagination offsetState 20 3
    (queryOf (onPaginationChanged offsetState 20 3))
    (stateOf (onPaginationChanged offsetState 20 3))
    (by decide) rfl rfl rfl

/-! ## Claim C1 -/

/-- C1 (counterexample): a state with both required properties set
(`datasetName` and `dataFilters` are non-falsy) on which `buildQuery` still
raises — a `TypeError`, not a configuration error: `sortingOptions` is set
while `paginationOptions` is absent, so the assignment
`datasetFilters.orderBy = ...` is a property write on `undefined`. -/
theorem c1_counterexample :
    jsFalsy (jsGet noPagSortState "datasetName") = false ∧
    jsFalsy (jsGet noPagSortState "dataFilters") = false ∧
    buildQuery noPagSortState = .error (.typeError "Cannot set property orderBy") :=
  ⟨by decide, by decide, by rfl⟩

/-- C1 (amended): `buildQuery` raises a configuration error exactly when
`datasetName` or `dataFilters` is falsy (absent, or an empty-string name);
with both set it returns a query string exactly when, additionally, no
truthy `sortingOptions`/`filteringOptions` is present or the stored
`paginationOptions` is an object — otherwise the `orderBy`/`filterBy`
assignment onto the missing dataset-filters object raises a `TypeError`
that propagates to the caller, so the configuration error is not the only
failure mode of this layer. -/
theorem c1_error_modes (s : JObj) :
    ((∃ m, buildQuery s = .error (.configError m)) ↔
       (jsFalsy (jsGet s "datasetName") || jsFalsy (jsGet s "dataFilters")) = true) ∧
    ((∃ q s', buildQuery s = .ok (q, s')) ↔
       ((jsFalsy (jsGet s "datasetName") || jsFalsy (jsGet s "dataFilters")) = false ∧
        ((jsTruthy (jsGet s "sortingOptions") || jsTruthy (jsGet s "filteringOptions")) = true →
           isJObj (jsGet s "paginationOptions") = true))) := by
  constructor
  · constructor
    · rintro ⟨m, hm⟩
      by_cases hreq : (jsFalsy (jsGet s "datasetName") || jsFalsy (jsGet s "dataFilters")) = true
      · exact hreq
      · exfalso
        have hreq' : (jsFalsy (jsGet s "datasetName") || jsFalsy (jsGet s "dataFilters"))
            = false := by
          simpa using hreq
        have hdoc := buildQuery_err_elim s _ hm
        unfold buildQueryDoc at hdoc
        rw [if_neg (by simp [hreq'])] at hdoc
        split at hdoc
        · rename_i e hap
          simp only [Except.error.injEq] at hdoc
          rw [hdoc] at hap
          exact applyDatasetFilters_no_config s m hap
        · exact absurd hdoc (by simp)
    · intro hreq
      refine ⟨"GraphQL Service requires \"datasetName\" & \"dataFilters\" properties for it to work", ?_⟩
      unfold buildQuery buildQueryDoc
      rw [if_pos hreq]
  · constructor
    · rintro ⟨q, s', hok⟩
      obtain ⟨doc, hdoc, -⟩ := buildQuery_ok_elim s q s' hok
      obtain ⟨hreq, hap, -⟩ := buildQueryDoc_ok_elim s doc s' hdoc
      exact ⟨hreq, (applyDatasetFilters_ok_iff s).mp ⟨(doc.args, s'), hap⟩⟩
    · rintro ⟨hreq, himp⟩
      obtain ⟨p, hp⟩ := (applyDatasetFilters_ok_iff s).mpr himp
      have hbd : buildQueryDoc s = .ok (⟨strOf (jsGet s "datasetName"), p.1,
          if jsTruthy (jsGet s "isWithCursor") then [.jstr "hasNextPage", .jstr "endCursor"]
          else [.jstr "hasNextPage"],
          if jsTruthy (jsGet s "isWithCursor") then "edges" else "nodes",
          if jsTruthy (jsGet s "isWithCursor") then
            [.jstr "cursor", .jobj [("node", jsGet s "dataFilters")]]
          else findsOf (jsGet s "dataFilters")⟩, p.2) := by
        unfold buildQueryDoc
        rw [if_neg (by simp [hreq]), hp]
      refine ⟨trimDoubleQuotesOnEnumField
          (serializeDoc (qdocOf (buildQueryDoc s))) enumSearchWords,
        qstateOf (buildQueryDoc s), ?_⟩
      unfold buildQuery
      rw [hbd]
      rfl

/-- C1 (witness): the success side of the amended characterization at the
fully configured state. -/
theorem c1_error_modes_witness :
    ∃ q s', buildQuery fullState = .ok (q, s') :=
  (c1_error_modes fullState).2.mpr ⟨by decide, by decide⟩

/-! ## Claim C10 -/

/-- C10: `buildQuery` is not read-only on the stored state.  The
dataset-filters object is the very `paginationOptions` object, so every
successful `buildQuery` on a state with a stored pagination object leaves a
state whose `paginationOptions` carries an `orderBy` key holding exactly the
sorting options whenever `sortingOptions` is truthy, and (independently) a
`filterBy` key holding exactly the filtering options whenever
`filteringOptions` is truthy; later calls start from this mutated state. -/
theorem c10_buildQuery_mutates (s : JObj) (q : String) (s' : JObj)
    (pf : List (String × JValue))
    (hpag : getKey s "paginationOptions" = some (.jobj pf))
    (hok : buildQuery s = .ok (q, s')) :
    ∃ pfq, getKey s' "paginationOptions" = some (.jobj pfq) ∧
      (jsTruthy (jsGet s "sortingOptions") = true →
         getKey pfq "orderBy" = some (jsGet s "sortingOptions")) ∧
      (jsTruthy (jsGet s "filteringOptions") = true →
         getKey pfq "filterBy" = some (jsGet s "filteringOptions")) := by
  obtain ⟨doc, hdoc, -⟩ := buildQuery_ok_elim s q s' hok
  obtain ⟨-, hap, -⟩ := buildQueryDoc_ok_elim s doc s' hdoc
  have hgetp : jsGet s "paginationOptions" = .jobj pf := by unfold jsGet; rw [hpag]
  unfold applyDatasetFilters at hap
  rw [hgetp, hpag] at hap
  by_cases hsor : jsTruthy (jsGet s "sortingOptions") = true
  · rw [hsor] at hap
    simp only [eq_self_iff_true, if_true, setProp] at hap
    by_cases hfil : jsTruthy (jsGet s "filteringOptions") = true
    · rw [hfil] at hap
      simp only [eq_self_iff_true, if_true, setProp, Except.ok.injEq, Prod.mk.injEq] at hap
      have hs' := hap.2
      refine ⟨setKey (setKey pf "orderBy" (jsGet s "sortingOptions")) "filterBy"
          (jsGet s "filteringOptions"), ?_, fun _ => ?_,
          fun _ => getKey_setKey_self _ _ _⟩
      · rw [← hs', getKey_setKey_self]
      · rw [getKey_setKey_ne _ _ _ _ (by decide), getKey_setKey_self]
    · have hfil' : jsTruthy (jsGet s "filteringOptions") = false := by simpa using hfil
      rw [hfil'] at hap
      simp only [Bool.false_eq_true, if_false, Except.ok.injEq, Prod.mk.injEq] at hap
      have hs' := hap.2
      refine ⟨setKey pf "orderBy" (jsGet s "sortingOptions"), ?_,
          fun _ => getKey_setKey_self _ _ _, fun hc => absurd hc hfil⟩
      · rw [← hs', getKey_setKey_self]
  · have hsor' : jsTruthy (jsGet s "sortingOptions") = false := by simpa using hsor
    rw [hsor'] at hap
    simp only [Bool.false_eq_true, if_false] at hap
    by_cases hfil : jsTruthy (jsGet s "filteringOptions") = true
    · rw [hfil] at hap
      simp only [eq_self_iff_true, if_true, setProp, Except.ok.injEq, Prod.mk.injEq] at hap
      have hs' := hap.2
      refine ⟨setKey pf "filterBy" (jsGet s "filteringOptions"), ?_,
          fun hc => absurd hc hsor, fun _ => getKey_setKey_self _ _ _⟩
      · rw [← hs', getKey_setKey_self]
    · have hfil' : jsTruthy (jsGet s "filteringOptions") = false := by simpa using hfil
      rw [hfil'] at hap
      simp only [Bool.false_eq_true, if_false, Except.ok.injEq, Prod.mk.injEq] at hap
      have hs' := hap.2
      refine ⟨pf, ?_, fun hc => absurd hc hsor, fun hc => absurd hc hfil⟩
      · rw [← hs', getKey_setKey_self]

/-- C10 (witness): on the fully configured state (sorting and filtering
both set) the returned state's `paginationOptions` carries `orderBy` and
`filterBy`; on the filtering-only state (no sorting options) it carries
`filterBy`. -/
theorem c10_buildQuery_mutates_witness :
    (∃ pfq, getKey (stateOf (buildQuery fullState)) "paginationOptions"
        = some (.jobj pfq) ∧
      (jsTruthy (jsGet fullState "sortingOptions") = true →
         getKey pfq "orderBy" = some (jsGet fullState "sortingOptions")) ∧
      (jsTruthy (jsGet fullState "filteringOptions") = true →
         getKey pfq "filterBy" = some (jsGet fullState "filteringOptions"))) ∧
    (∃ pfq, getKey (stateOf (buildQuery filterOnlyState)) "paginationOptions"
        = some (.jobj pfq) ∧
      (jsTruthy (jsGet filterOnlyState "sortingOptions") = true →
         getKey pfq "orderBy" = some (jsGet filterOnlyState "sortingOptions")) ∧
      (jsTruthy (jsGet filterOnlyState "filteringOptions") = true →
         getKey pfq "filterBy" = some (jsGet filterOnlyState "filteringOptions"))) :=
  ⟨c10_buildQuery_mutates fullState (queryOf (buildQuery fullState))
      (stateOf (buildQuery fullState)) [("first", .jnum 20)] rfl rfl,
   c10_buildQuery_mutates filterOnlyState (queryOf (buildQuery filterOnlyState))
      (stateOf (buildQuery filterOnlyState)) [("first", .jnum 20)] rfl rfl⟩
